import Mathlib

/-!
Shallow embedding of the leaderboard-go transactional-outbox service.

The embedding follows the Go sources:
* the batch drain worker `processBatchOutbox`, the submit / read / purge
  HTTP handlers and the schema come from the batch implementation
  (the unnamed source file with `processBatchOutbox`);
* the legacy single-row worker `processOneOutbox` and the legacy submit
  handler come from `src/main.go`.

Postgres rows become Lean structures, the Redis sorted-set keyspace becomes
a function `SeasonId → Option (UserId → Int)` (ZIncrBy is an additive
integer increment; int64 deltas are modeled as `Int`), and SQL transactions
become all-or-nothing state updates parameterised by an outcome describing
where, if anywhere, the transaction failed.
-/

namespace LeaderboardGo

abbrev SeasonId := String
abbrev UserId := String

/-- Outbox row status (schema.sql: `pending`/`processing`/`done`/`failed`). -/
inductive Status
  | pending
  | processing
  | done
  | failed
deriving DecidableEq

/-- A decoded `score_delta` payload: the struct the workers unmarshal the
JSONB `payload` column into (`seasonId`, `userId`, `delta`). -/
structure Payload where
  seasonId : SeasonId
  userId : UserId
  delta : Int
deriving DecidableEq

/-- The JSONB `payload` column.  A blob either unmarshals into a `Payload`
or fails to decode; a non-decodable blob is still valid JSON (the column
type is JSONB), so the SQL expression `payload->>'seasonId'` used by the
purge handler may still extract a season id from it, carried here as
`extractSeason`.  `errMsg` is the decoder's error text. -/
inductive Blob
  | ok (p : Payload)
  | malformed (extractSeason : Option SeasonId) (errMsg : String)
deriving DecidableEq

/-- `json.Unmarshal` of the payload into the worker's struct. -/
def Blob.decode : Blob → Option Payload
  | .ok p => some p
  | .malformed _ _ => none

/-- The SQL expression `payload->>'seasonId'` used by the purge handler. -/
def Blob.season : Blob → Option SeasonId
  | .ok p => some p.seasonId
  | .malformed s _ => s

/-- A row of the `outbox` table (schema.sql).  `processedAt` records
whether the `processed_at` timestamp column is set. -/
structure OutboxRow where
  id : Nat
  eventType : String
  payload : Blob
  status : Status
  attempts : Nat
  lastError : Option String
  processedAt : Bool
deriving DecidableEq

/-- A row of the `score_events` table (schema.sql). -/
structure LedgerRow where
  id : Nat
  seasonId : SeasonId
  userId : UserId
  delta : Int
deriving DecidableEq

/-- The Redis keyspace restricted to the `lb:{season}` sorted sets:
for each season, either the key is absent (`none`) or it holds a member
score map.  Scores are modeled as exact integers; in the program the
sorted-set scores are IEEE float64 (`ZIncrBy` receives `float64(p.Delta)`
from an int64 delta), so this model coincides with the program only while
every accumulated score stays inside the float64-exactly-representable
integer range (magnitude at most 2^53) — outside it the program's
accumulation rounds and is not an exact integer sum. -/
def Cache : Type := SeasonId → Option (UserId → Int)

/-- `ZINCRBY lb:{s} d u`: creates the key and/or member as needed (see
the float64 caveat on `Cache`). -/
def zincrby (c : Cache) (s : SeasonId) (u : UserId) (d : Int) : Cache :=
  fun s' =>
    if s' = s then
      match c s with
      | none => some (fun u' => if u' = u then d else 0)
      | some m => some (fun u' => if u' = u then m u + d else m u')
    else c s'

/-- `DEL lb:{s}`. -/
def Cache.del (c : Cache) (s : SeasonId) : Cache :=
  fun s' => if s' = s then none else c s'

/-- The score of `(s, u)` as read from the cache, absent meaning 0. -/
def score (c : Cache) (s : SeasonId) (u : UserId) : Int :=
  match c s with
  | none => 0
  | some m => m u

/-- The whole system state: the two Postgres tables, the Redis cache, and
the identity counters backing `GENERATED ALWAYS AS IDENTITY`. -/
structure SysState where
  ledger : List LedgerRow
  outbox : List OutboxRow
  cache : Cache
  nextLid : Nat
  nextOid : Nat

def initState : SysState :=
  { ledger := [], outbox := [], cache := fun _ => none, nextLid := 0, nextOid := 0 }

/-- The JSON body of `POST /v1/seasons/{sid}/scores`. -/
structure scoreUpdateRequest where
  userId : String
  delta : Int
deriving DecidableEq

/-- Where, if anywhere, the submit transaction fails.  All failure points
roll the transaction back (`defer tx.Rollback()`), so the Postgres state is
unchanged on every outcome other than `ok`. -/
inductive TxOutcome
  | ok
  | failBegin
  | failLedger
  | failOutbox
  | failCommit
deriving DecidableEq

/-- Effect of the committed submit transaction: one `score_events` insert
and one `outbox` insert (`event_type='score_delta'`, `status='pending'`,
default `attempts=0`). -/
def commitSubmit (st : SysState) (sid : SeasonId) (req : scoreUpdateRequest) : SysState :=
  { st with
    ledger := st.ledger ++ [{ id := st.nextLid, seasonId := sid, userId := req.userId, delta := req.delta }]
    outbox := st.outbox ++ [{ id := st.nextOid, eventType := "score_delta",
                              payload := .ok { seasonId := sid, userId := req.userId, delta := req.delta },
                              status := .pending, attempts := 0, lastError := none, processedAt := false }]
    nextLid := st.nextLid + 1
    nextOid := st.nextOid + 1 }

/-- `POST /v1/seasons/{sid}/scores` from the batch implementation:
validates season id, body decode, non-empty `userId`, non-zero `delta`,
then runs the two inserts in one transaction.  Returns the HTTP status
code and the resulting durable state. -/
def postScores (st : SysState) (sid : String) (body : Option scoreUpdateRequest)
    (txo : TxOutcome) : Nat × SysState :=
  if sid = "" then (400, st)
  else
    match body with
    | none => (400, st)
    | some req =>
      if req.userId = "" then (400, st)
      else if req.delta = 0 then (400, st)
      else
        match txo with
        | .ok => (202, commitSubmit st sid req)
        | _ => (500, st)

/-- `POST /v1/seasons/{sid}/scores` from `src/main.go`: identical except
that it performs no zero-delta check. -/
def postScoresLegacy (st : SysState) (sid : String) (body : Option scoreUpdateRequest)
    (txo : TxOutcome) : Nat × SysState :=
  if sid = "" then (400, st)
  else
    match body with
    | none => (400, st)
    | some req =>
      if req.userId = "" then (400, st)
      else
        match txo with
        | .ok => (202, commitSubmit st sid req)
        | _ => (500, st)

/-! ## Drain worker: batch implementation (`processBatchOutbox`) -/

/-- Batch size `B` of the claim query (`LIMIT $1` with `batchSize = 500`). -/
def batchSize : Nat := 500

/-- The claim query:
`SELECT id, event_type, payload FROM outbox WHERE status='pending'
 ORDER BY id FOR UPDATE SKIP LOCKED LIMIT batchSize`.
The outbox list is kept sorted by id (see `WF`), so `ORDER BY id` is the
list order; `SKIP LOCKED` skips the ids in `locked`, the rows currently
locked by other transactions. -/
def claimSelect (outbox : List OutboxRow) (locked : List Nat) : List OutboxRow :=
  (outbox.filter fun r => decide (r.status = .pending ∧ r.id ∉ locked)).take batchSize

/-- `UPDATE outbox SET status='processing', attempts=attempts+1
     WHERE id = ANY($1)` — one statement over all claimed ids. -/
def markProcessing (outbox : List OutboxRow) (ids : List Nat) : List OutboxRow :=
  outbox.map fun r =>
    if r.id ∈ ids then { r with status := .processing, attempts := r.attempts + 1 } else r

/-- Finalisation of a single claimed row, mirroring the per-item routing
text of the batch worker: decode failure → `failed` with the json error;
unknown event type → `failed`; otherwise the row's `ZIncrBy` result picks
between the bulk revert to `pending` (`last_error='redis cmd error'`) and
the bulk `done` update (`processed_at=now(), last_error=NULL`).  `rerr i =
true` means the pipelined cache op for row `i` reported an error.  Note
that in the program the `okIDs`/`failIDs` partition only runs after
`pipe.Exec` returned a nil error, and go-redis returns the first
per-command error from `Exec`, so the revert branch is dead code: every
reachable call of this finalisation has `rerr` constantly false (see
`CycleOutcome`).  Rows outside the claimed set are untouched. -/
def finalizeRow (claimedIds : List Nat) (rerr : Nat → Bool) (r : OutboxRow) : OutboxRow :=
  if r.id ∈ claimedIds then
    match r.payload with
    | .malformed _ msg => { r with status := .failed, lastError := some ("json error: " ++ msg) }
    | .ok _ =>
      if r.eventType = "score_delta" then
        if rerr r.id then { r with status := .pending, lastError := some "redis cmd error" }
        else { r with status := .done, lastError := none, processedAt := true }
      else { r with status := .failed, lastError := some ("unknown event_type: " ++ r.eventType) }
  else r

/-- The payloads whose pipelined `ZIncrBy` actually took effect: rows that
decoded, carry the `score_delta` tag, and whose cache op did not error. -/
def okPayloads (claimed : List OutboxRow) (rerr : Nat → Bool) : List Payload :=
  claimed.filterMap fun r =>
    match r.payload with
    | .ok p => if r.eventType = "score_delta" ∧ rerr r.id = false then some p else none
    | .malformed _ _ => none

/-- Apply a list of increments to the cache, in dispatch order. -/
def applyOps (c : Cache) (ops : List Payload) : Cache :=
  ops.foldl (fun acc p => zincrby acc p.seasonId p.userId p.delta) c

/-- Outcome of one batch cycle, following the control flow of the batch
worker.
* `abortEarly`: an unrecoverable error before the pipeline dispatch (claim
  query or processing update failed) — the transaction rolls back with no
  durable or cache effect.
* `pipeFail rerr`: the pipeline was dispatched and `pipe.Exec` returned a
  non-nil error.  go-redis `Pipeline.Exec` returns the first per-command
  error, so this path is taken whenever one or more individual ops fail
  (and on transport failure); the worker returns, the Postgres
  transaction rolls back — but the increments that did succeed
  (`rerr i = false`) persist in Redis across the rollback.
* `finalizeFail`: every op succeeded but the bulk `done` update or the
  commit failed; the rollback reverts the rows while all dispatched
  increments persist.
* `commit`: every op succeeded and the finalize updates committed.
There is no committed outcome with per-op errors: the `okIDs`/`failIDs`
partition after `pipe.Exec` runs only when every op succeeded, so its
`failIDs` revert path is unreachable. -/
inductive CycleOutcome
  | abortEarly
  | pipeFail (rerr : Nat → Bool)
  | finalizeFail
  | commit

/-- One cycle of the batch drain worker `processBatchOutbox`.  An empty
claim commits with no effect.  Otherwise the claimed rows are marked
processing (attempts+1) and routed per item inside the transaction, the
surviving increments are pipelined to Redis, and then, depending on the
outcome: on `pipeFail` or `finalizeFail` the transaction rolls back —
the outbox is durably unchanged but the successful increments remain
applied; on `commit` the poison rows end `failed`, every surviving row
ends `done`, and the increments are applied. -/
def processBatchOutbox (st : SysState) (locked : List Nat) (out : CycleOutcome) : SysState :=
  match out with
  | .abortEarly => st
  | .pipeFail rerr =>
    let claimed := claimSelect st.outbox locked
    if claimed.isEmpty then st
    else { st with cache := applyOps st.cache (okPayloads claimed rerr) }
  | .finalizeFail =>
    let claimed := claimSelect st.outbox locked
    if claimed.isEmpty then st
    else { st with cache := applyOps st.cache (okPayloads claimed (fun _ => false)) }
  | .commit =>
    let claimed := claimSelect st.outbox locked
    if claimed.isEmpty then st
    else
      let ids := claimed.map (·.id)
      { st with
        outbox := (markProcessing st.outbox ids).map (finalizeRow ids (fun _ => false))
        cache := applyOps st.cache (okPayloads claimed (fun _ => false)) }

/-! ## Drain worker: legacy single-row implementation (`processOneOutbox`, src/main.go) -/

/-- The legacy claim: same query with `LIMIT 1`. -/
def claimSelectOne (outbox : List OutboxRow) (locked : List Nat) : Option OutboxRow :=
  (outbox.filter fun r => decide (r.status = .pending ∧ r.id ∉ locked)).head?

/-- One cycle of the legacy worker `processOneOutbox` (src/main.go).
`rerr` says whether the single `ZIncrBy` call errors.  Note the control
flow of the source: after the processing update, a decode failure commits
a `failed` row; when the event type is `score_delta` a Redis error commits
a `pending` revert and success falls through; when the event type is
anything else the Redis call is skipped entirely and control falls through
to the final `done` update. -/
def processOneOutbox (st : SysState) (locked : List Nat) (rerr : Bool) : SysState :=
  match claimSelectOne st.outbox locked with
  | none => st
  | some r =>
    let ob := markProcessing st.outbox [r.id]
    match r.payload with
    | .malformed _ msg =>
      { st with outbox := ob.map fun x =>
          if x.id = r.id then { x with status := .failed, lastError := some ("bad payload: " ++ msg) } else x }
    | .ok p =>
      if r.eventType = "score_delta" then
        if rerr then
          { st with outbox := ob.map fun x =>
              if x.id = r.id then { x with status := .pending, lastError := some "redis: error" } else x }
        else
          { st with
            outbox := ob.map fun x =>
              if x.id = r.id then { x with status := .done, lastError := none, processedAt := true } else x
            cache := zincrby st.cache p.seasonId p.userId p.delta }
      else
        { st with outbox := ob.map fun x =>
            if x.id = r.id then { x with status := .done, lastError := none, processedAt := true } else x }

/-! ## Purge handler (`DELETE /v1/seasons/{sid}`) -/

/-- Where, if anywhere, the purge fails: `redisFail` is a failing
`rdb.Del` (the handler returns before touching Postgres); `txFail` covers
a failure anywhere in the durable transaction (begin, either delete, or
commit) — the cache key is already gone but the transaction rolls back. -/
inductive PurgeOutcome
  | ok
  | redisFail
  | txFail
deriving DecidableEq

/-- The two deletes of the purge transaction:
`DELETE FROM score_events WHERE season_id=$1` and
`DELETE FROM outbox WHERE payload->>'seasonId'=$1`. -/
def purgeDurable (st : SysState) (sid : SeasonId) : SysState :=
  { st with
    ledger := st.ledger.filter fun r => !decide (r.seasonId = sid)
    outbox := st.outbox.filter fun r => !decide (r.payload.season = some sid) }

/-- `DELETE /v1/seasons/{sid}`: drop the `lb:{sid}` Redis key first, then
delete the season's ledger and outbox rows in one Postgres transaction. -/
def purgeSeason (st : SysState) (sid : String) (out : PurgeOutcome) : Nat × SysState :=
  if sid = "" then (400, st)
  else
    match out with
    | .redisFail => (500, st)
    | .txFail => (500, { st with cache := st.cache.del sid })
    | .ok => (200, purgeDurable { st with cache := st.cache.del sid } sid)

/-! ## Read side: around query -/

/-- An item of the around response (`rank` is 1-based; the Go field is an
int64, so ranks are modeled as `Int`). -/
structure AroundItem where
  rank : Int
  userId : UserId
  score : Int
deriving DecidableEq

/-- `ZREVRANK`: 0-based position of a member in the season's descending
board, `none` when absent.  `board` is the descending member list the
sorted set holds for the season. -/
def zrevrank (board : List (UserId × Int)) (u : UserId) : Option Nat :=
  board.findIdx? fun e => decide (e.1 = u)

/-- The core of the around handler: look up the user's reverse rank, clip
`start := rank - range` at 0, fetch `ZREVRANGE start (rank + range)` and
attach 1-based ranks `start + i + 1`.  `none` models the 404 path. -/
def aroundQuery (board : List (UserId × Int)) (u : UserId) (rng : Int) :
    Option (List AroundItem) :=
  match zrevrank board u with
  | none => none
  | some r0 =>
    let start0 : Int := (r0 : Int) - rng
    let start : Int := if start0 < 0 then 0 else start0
    let stop : Int := (r0 : Int) + rng
    let zs := (board.drop start.toNat).take (stop + 1 - start).toNat
    some (zs.enum.map fun iz => { rank := start + iz.1 + 1, userId := iz.2.1, score := iz.2.2 })

/-! ## Read side: query-parameter parsing -/

/-- Model of `fmt.Sscanf(v, "%d", &parsed)`: skip leading spaces/tabs, scan
an optional sign and a non-empty run of decimal digits, ignore whatever
trails them; fail only when no digit is found. -/
def sscanfInt (s : String) : Option Int :=
  let cs := s.data.dropWhile fun c => c == ' ' || c == '\t'
  let signed : Bool × List Char :=
    match cs with
    | '-' :: t => (true, t)
    | '+' :: t => (false, t)
    | _ => (false, cs)
  let ds := signed.2.takeWhile (·.isDigit)
  if ds.isEmpty then none
  else
    let n : Nat := ds.foldl (fun acc c => 10 * acc + (c.toNat - '0'.toNat)) 0
    some (if signed.1 then -(n : Int) else (n : Int))

/-- The `limit` parameter of the top handler: empty string (absent) means
the default 10; otherwise `Sscanf` must produce a value in 1..1000, else
the request is rejected (`none`). -/
def parseLimitParam (v : String) : Option Int :=
  if v = "" then some 10
  else
    match sscanfInt v with
    | none => none
    | some n => if n ≤ 0 ∨ 1000 < n then none else some n

/-- The `range` parameter of the around handler: default 5, bounds 0..100. -/
def parseRangeParam (v : String) : Option Int :=
  if v = "" then some 5
  else
    match sscanfInt v with
    | none => none
    | some n => if n < 0 ∨ 100 < n then none else some n

/-! ## Traces -/

/-- One externally observable operation on the durable state. -/
inductive Step
  | submit (sid : String) (body : Option scoreUpdateRequest) (txo : TxOutcome)
  | drain (locked : List Nat) (out : CycleOutcome)
  | purge (sid : String) (out : PurgeOutcome)

def Step.isPurge : Step → Bool
  | .purge _ _ => true
  | _ => false

/-- A step whose drain cycle aborts after dispatching its Redis pipeline:
its successful increments persist while the claimed rows revert to
`pending`, so those increments are re-applied when the rows are drained
again (the program's at-least-once anomaly). -/
def Step.orphansIncrements : Step → Bool
  | .drain _ (.pipeFail _) => true
  | .drain _ .finalizeFail => true
  | _ => false

def stepState (st : SysState) : Step → SysState
  | .submit sid body txo => (postScores st sid body txo).2
  | .drain locked out => processBatchOutbox st locked out
  | .purge sid out => (purgeSeason st sid out).2

def runTrace (st : SysState) (tr : List Step) : SysState :=
  tr.foldl stepState st

/-- The ids a step durably claims (whose `attempts` increment survives):
only a drain cycle that reaches commit; an aborted cycle's processing
update, attempts increment included, is rolled back. -/
def claimedIds (st : SysState) : Step → List Nat
  | .drain locked .commit => (claimSelect st.outbox locked).map (·.id)
  | _ => []

/-- How many times the row with id `i` is claimed along a trace. -/
def claimCount (st : SysState) (tr : List Step) (i : Nat) : Nat :=
  match tr with
  | [] => 0
  | stp :: rest =>
    (if i ∈ claimedIds st stp then 1 else 0) + claimCount (stepState st stp) rest i

/-- Representation invariant: the outbox list is strictly sorted by id
(ids are assigned by an always-ascending identity column, and the claim
query's `ORDER BY id` is the list order) and every id is below the next
identity value. -/
structure WF (st : SysState) : Prop where
  sorted : st.outbox.Pairwise fun a b => a.id < b.id
  bounded : ∀ r ∈ st.outbox, r.id < st.nextOid

/-- No outbox row is `pending` or `processing`. -/
def quiescent (st : SysState) : Prop :=
  ∀ r ∈ st.outbox, r.status ≠ .pending ∧ r.status ≠ .processing

instance (st : SysState) : Decidable (quiescent st) := by
  unfold quiescent; infer_instance

/-- Sum of the deltas of the `done` outbox rows for `(s, u)`. -/
def rowDoneDelta (s : SeasonId) (u : UserId) (r : OutboxRow) : Int :=
  match r.payload with
  | .ok p => if r.status = .done ∧ p.seasonId = s ∧ p.userId = u then p.delta else 0
  | .malformed _ _ => 0

def doneSum (l : List OutboxRow) (s : SeasonId) (u : UserId) : Int :=
  (l.map (rowDoneDelta s u)).sum

/-- Contribution of one dispatched increment to the score of `(s, u)`. -/
def opDelta (s : SeasonId) (u : UserId) (p : Payload) : Int :=
  if p.seasonId = s ∧ p.userId = u then p.delta else 0

/-- Contribution of one claimed row to the `(s, u)` done-sum after a
committed batch cycle: its delta exactly when it decodes, carries the
`score_delta` tag, its cache op succeeded and its keys match. -/
def doneGain (s : SeasonId) (u : UserId) (rerr : Nat → Bool) (r : OutboxRow) : Int :=
  match r.payload with
  | .ok p =>
    if r.eventType = "score_delta" ∧ rerr r.id = false ∧ p.seasonId = s ∧ p.userId = u
    then p.delta else 0
  | .malformed _ _ => 0

/-- The reconciliation invariant: every `(season, user)` cache score equals
the sum of the deltas of its `done` outbox rows. -/
def scoresMatch (st : SysState) : Prop :=
  ∀ s u, score st.cache s u = doneSum st.outbox s u

/-! ## Concrete states used by the divergence theorems -/

/-- A claimed outbox row whose event type is not `score_delta` but whose
payload decodes fine. -/
def unkRow : OutboxRow :=
  { id := 1, eventType := "bonus_event", payload := .ok ⟨"s1", "u1", 5⟩,
    status := .pending, attempts := 0, lastError := none, processedAt := false }

def unkState : SysState := { initState with outbox := [unkRow], nextOid := 2 }

/-- Two well-formed pending `score_delta` rows for the same season. -/
def claimRowA : OutboxRow :=
  { id := 1, eventType := "score_delta", payload := .ok ⟨"s1", "u1", 5⟩,
    status := .pending, attempts := 0, lastError := none, processedAt := false }

def claimRowB : OutboxRow :=
  { id := 2, eventType := "score_delta", payload := .ok ⟨"s1", "u2", 4⟩,
    status := .pending, attempts := 0, lastError := none, processedAt := false }

def stAB : SysState := { initState with outbox := [claimRowA, claimRowB], nextOid := 3 }

/-- A trace in which one submitted row is claimed twice: the first cycle's
pipeline errors, so its transaction rolls back (the row reverts to
`pending` and the attempts increment is undone); the second cycle
succeeds. -/
def trRetry : List Step :=
  [.submit "s1" (some ⟨"u1", 5⟩) .ok,
   .drain [] (.pipeFail fun _ => true),
   .drain [] .commit]

/-- The row as it stands after `trRetry`: one durable (committed) claim. -/
def doneRowRetry : OutboxRow :=
  { id := 0, eventType := "score_delta", payload := .ok ⟨"s1", "u1", 5⟩,
    status := .done, attempts := 1, lastError := none, processedAt := true }

/-- Two submits for the same user followed by one clean drain cycle. -/
def trAccum : List Step :=
  [.submit "s1" (some ⟨"u1", 5⟩) .ok,
   .submit "s1" (some ⟨"u1", 3⟩) .ok,
   .drain [] .commit]

/-- The double-apply schedule: one submit, one cycle whose increment is
dispatched and applied but whose transaction then fails to finalize, and
one clean retry cycle.  The delta ends applied twice. -/
def trDouble : List Step :=
  [.submit "s1" (some ⟨"u1", 5⟩) .ok,
   .drain [] .finalizeFail,
   .drain [] .commit]

/-! ## Helper lemmas -/

theorem claimSelect_sublist (outbox : List OutboxRow) (locked : List Nat) :
    (claimSelect outbox locked).Sublist outbox :=
  ((outbox.filter _).take_sublist batchSize).trans (outbox.filter_sublist)

theorem mem_of_mem_claimSelect {outbox : List OutboxRow} {locked : List Nat} {r : OutboxRow}
    (h : r ∈ claimSelect outbox locked) : r ∈ outbox :=
  (claimSelect_sublist outbox locked).subset h

theorem props_of_mem_claimSelect {outbox : List OutboxRow} {locked : List Nat} {r : OutboxRow}
    (h : r ∈ claimSelect outbox locked) : r.status = .pending ∧ r.id ∉ locked := by
  have := List.mem_filter.mp ((outbox.filter _).take_subset batchSize h)
  exact of_decide_eq_true this.2

theorem finalizeRow_id (ids : List Nat) (rerr : Nat → Bool) (r : OutboxRow) :
    (finalizeRow ids rerr r).id = r.id := by
  unfold finalizeRow
  split
  · rcases r.payload <;> dsimp <;> split <;> try split
    all_goals rfl
  · rfl

theorem finalizeRow_attempts (ids : List Nat) (rerr : Nat → Bool) (r : OutboxRow) :
    (finalizeRow ids rerr r).attempts = r.attempts := by
  unfold finalizeRow
  split
  · rcases r.payload <;> dsimp <;> split <;> try split
    all_goals rfl
  · rfl

end LeaderboardGo

namespace LeaderboardGo

/-- C1 — divergence: the claim says that when one or more individual
pipelined cache ops fail while the rest succeed, only the failing rows
revert to `pending` with a recorded error and every other claimed row is
finalised to `done`, the batch never being aborted as a whole.  In the
program, go-redis `Pipeline.Exec` returns the first per-command error, so
the guard after the dispatch returns and the deferred rollback aborts the
WHOLE cycle: on the concrete two-row batch where row 1's op errors and
row 2's succeeds, the outbox is left exactly as before (no row reverted
with an error, no row done, no attempts increment survives) while row 2's
increment persists in Redis.  Rows reach `done` only through the
all-ops-succeeded commit path, shown in the last conjunct. -/
theorem pipeline_error_aborts_whole_batch :
    (processBatchOutbox stAB [] (.pipeFail fun i => i == 1)).outbox = stAB.outbox
    ∧ score (processBatchOutbox stAB [] (.pipeFail fun i => i == 1)).cache "s1" "u2" = 4
    ∧ score (processBatchOutbox stAB [] (.pipeFail fun i => i == 1)).cache "s1" "u1" = 0
    ∧ (processBatchOutbox stAB [] .commit).outbox
        = [{ claimRowA with status := .done, attempts := 1, processedAt := true },
           { claimRowB with status := .done, attempts := 1, processedAt := true }] := by
  refine ⟨by decide, by decide, by decide, by decide⟩

/-- C3 — For an accepted submit (valid season, user, non-zero delta), a
committed transaction appends exactly one ledger row and exactly one
outbox row carrying the same `(season, user, delta)`; on a failure at any
point of the transaction the handler returns 500 and the durable state is
exactly the prior state (both inserts roll back together). -/
theorem submit_atomic_pair
    (st : SysState) (sid : String) (req : scoreUpdateRequest) (txo : TxOutcome)
    (hsid : sid ≠ "") (huid : req.userId ≠ "") (hdelta : req.delta ≠ 0) :
    (txo = .ok →
      (postScores st sid (some req) txo).1 = 202
      ∧ (postScores st sid (some req) txo).2.ledger
          = st.ledger ++ [{ id := st.nextLid, seasonId := sid,
                            userId := req.userId, delta := req.delta }]
      ∧ (postScores st sid (some req) txo).2.outbox
          = st.outbox ++ [{ id := st.nextOid, eventType := "score_delta",
                            payload := .ok { seasonId := sid, userId := req.userId,
                                             delta := req.delta },
                            status := .pending, attempts := 0, lastError := none,
                            processedAt := false }])
    ∧ (txo ≠ .ok → postScores st sid (some req) txo = (500, st)) := by
  have hps : postScores st sid (some req) txo
      = match txo with
        | .ok => (202, commitSubmit st sid req)
        | _ => (500, st) := by
    simp only [postScores, if_neg hsid, if_neg huid, if_neg hdelta]
  cases txo
  · exact ⟨fun _ => by rw [hps]; exact ⟨rfl, rfl, rfl⟩, fun h => absurd rfl h⟩
  all_goals exact ⟨(fun h => nomatch h), fun _ => by rw [hps]⟩

/-- Witness for C3 at a concrete accepted submit. -/
theorem submit_atomic_pair_witness :
    (("s1" : String) ≠ "" ∧ ("u1" : String) ≠ "" ∧ (5 : Int) ≠ 0)
    ∧ (postScores initState "s1" (some ⟨"u1", 5⟩) .ok).1 = 202
    ∧ (postScores initState "s1" (some ⟨"u1", 5⟩) .ok).2.ledger
        = [{ id := 0, seasonId := "s1", userId := "u1", delta := 5 }]
    ∧ (postScores initState "s1" (some ⟨"u1", 5⟩) .ok).2.outbox
        = [{ id := 0, eventType := "score_delta",
             payload := .ok { seasonId := "s1", userId := "u1", delta := 5 },
             status := .pending, attempts := 0, lastError := none,
             processedAt := false }] :=
  ⟨⟨by decide, by decide, by decide⟩,
    (submit_atomic_pair initState "s1" ⟨"u1", 5⟩ .ok
      (by decide) (by decide) (by decide)).1 rfl⟩

/-- C4 — The claim of a drain cycle selects at most `batchSize` rows, each
`pending` and not locked by another transaction; on an id-sorted outbox the
claimed identifiers are strictly ascending; the single processing update
sets exactly the claimed rows to `processing` with `attempts` incremented
by one and leaves every other row untouched. -/
theorem claim_batch_ascending (outbox : List OutboxRow) (locked : List Nat)
    (hsorted : outbox.Pairwise fun a b => a.id < b.id) :
    (claimSelect outbox locked).length ≤ batchSize
    ∧ (∀ r ∈ claimSelect outbox locked, r.status = .pending ∧ r.id ∉ locked)
    ∧ ((claimSelect outbox locked).map (·.id)).Pairwise (· < ·)
    ∧ (∀ r ∈ outbox,
        (r.id ∈ (claimSelect outbox locked).map (·.id) →
          { r with status := .processing, attempts := r.attempts + 1 }
            ∈ markProcessing outbox ((claimSelect outbox locked).map (·.id)))
        ∧ (r.id ∉ (claimSelect outbox locked).map (·.id) →
          r ∈ markProcessing outbox ((claimSelect outbox locked).map (·.id)))) := by
  refine ⟨?_, fun r hr => props_of_mem_claimSelect hr, ?_, ?_⟩
  · exact (List.length_take_le _ _)
  · have hsub : (claimSelect outbox locked).Pairwise fun a b => a.id < b.id :=
      hsorted.sublist (claimSelect_sublist outbox locked)
    exact (List.pairwise_map).mpr hsub
  · intro r hr
    constructor
    · intro hid
      exact List.mem_map.mpr ⟨r, hr, by rw [if_pos hid]⟩
    · intro hid
      exact List.mem_map.mpr ⟨r, hr, by rw [if_neg hid]⟩

/-- Witness for C4 on a concrete sorted two-row outbox with row 2 locked. -/
theorem claim_batch_ascending_witness :
    (stAB.outbox.Pairwise fun a b => a.id < b.id)
    ∧ (claimSelect stAB.outbox [2]).length ≤ batchSize
    ∧ (∀ r ∈ claimSelect stAB.outbox [2], r.status = .pending ∧ r.id ∉ [2])
    ∧ ((claimSelect stAB.outbox [2]).map (·.id)).Pairwise (· < ·) :=
  ⟨by decide,
    have h := claim_batch_ascending stAB.outbox [2] (by decide)
    ⟨h.1, h.2.1, h.2.2.1⟩⟩

/-- C5 — divergence on a claimed row with an unrecognised event type: the
batch worker `processBatchOutbox` marks it `failed` with the recorded
error and applies no cache effect, as the claim states; the legacy worker
`processOneOutbox` of src/main.go instead finalises the very same row to
`done` (clearing the error and stamping `processed_at`), also with no
cache effect — contradicting the claim that such a row never reaches
`done`. -/
theorem unknown_event_type_divergence :
    (processBatchOutbox unkState [] .commit).outbox
      = [{ unkRow with
            status := .failed, attempts := 1,
            lastError := some "unknown event_type: bonus_event" }]
    ∧ score (processBatchOutbox unkState [] .commit).cache "s1" "u1" = 0
    ∧ (processOneOutbox unkState [] false).outbox
      = [{ unkRow with status := .done, attempts := 1, processedAt := true }]
    ∧ score (processOneOutbox unkState [] false).cache "s1" "u1" = 0 := by
  refine ⟨by decide, by decide, by decide, by decide⟩

/-- C6 — divergence on a zero-delta submit: the batch implementation's
handler rejects it with HTTP 400 and persists nothing, as the claim
states; the handler of src/main.go has no zero-delta check and accepts the
same request with HTTP 202, persisting a ledger row and an outbox row with
`delta = 0`. -/
theorem zero_delta_divergence :
    (postScores initState "s1" (some ⟨"u1", 0⟩) .ok).1 = 400
    ∧ (postScores initState "s1" (some ⟨"u1", 0⟩) .ok).2.ledger = []
    ∧ (postScores initState "s1" (some ⟨"u1", 0⟩) .ok).2.outbox = []
    ∧ (postScoresLegacy initState "s1" (some ⟨"u1", 0⟩) .ok).1 = 202
    ∧ (postScoresLegacy initState "s1" (some ⟨"u1", 0⟩) .ok).2.ledger
        = [{ id := 0, seasonId := "s1", userId := "u1", delta := 0 }]
    ∧ (postScoresLegacy initState "s1" (some ⟨"u1", 0⟩) .ok).2.outbox
        = [{ id := 0, eventType := "score_delta",
             payload := .ok { seasonId := "s1", userId := "u1", delta := 0 },
             status := .pending, attempts := 0, lastError := none,
             processedAt := false }] := by
  refine ⟨by decide, by decide, by decide, by decide, by decide, by decide⟩

/-- C9 — purge: a failing Redis delete leaves everything unchanged (500);
a cache delete followed by a failing durable transaction leaves the cache
key gone but both tables intact (the two durable deletes roll back
together); a fully successful purge removes the cache key, all ledger rows
of the season and all outbox rows whose payload's seasonId matches, the
two deletes committing atomically.  Whenever the durable state changed,
the cache key is already gone: the cache drop strictly precedes the
durable deletes and is not atomic with them. -/
theorem purge_order_and_atomicity (st : SysState) (sid : String) (hsid : sid ≠ "") :
    (purgeSeason st sid .redisFail = (500, st))
    ∧ ((purgeSeason st sid .txFail).1 = 500
        ∧ (purgeSeason st sid .txFail).2.cache sid = none
        ∧ (∀ s, s ≠ sid → (purgeSeason st sid .txFail).2.cache s = st.cache s)
        ∧ (purgeSeason st sid .txFail).2.ledger = st.ledger
        ∧ (purgeSeason st sid .txFail).2.outbox = st.outbox)
    ∧ ((purgeSeason st sid .ok).1 = 200
        ∧ (purgeSeason st sid .ok).2.cache sid = none
        ∧ (∀ s, s ≠ sid → (purgeSeason st sid .ok).2.cache s = st.cache s)
        ∧ (purgeSeason st sid .ok).2.ledger
            = st.ledger.filter (fun r => !decide (r.seasonId = sid))
        ∧ (purgeSeason st sid .ok).2.outbox
            = st.outbox.filter (fun r => !decide (r.payload.season = some sid)))
    ∧ (∀ o : PurgeOutcome,
        ((purgeSeason st sid o).2.ledger ≠ st.ledger
          ∨ (purgeSeason st sid o).2.outbox ≠ st.outbox) →
        (purgeSeason st sid o).2.cache sid = none) := by
  refine ⟨?_, ⟨?_, ?_, ?_, ?_, ?_⟩, ⟨?_, ?_, ?_, ?_, ?_⟩, ?_⟩
  · simp [purgeSeason, if_neg hsid]
  · simp [purgeSeason, if_neg hsid]
  · simp [purgeSeason, if_neg hsid, Cache.del]
  · intro s hs; simp [purgeSeason, if_neg hsid, Cache.del, hs]
  · simp [purgeSeason, if_neg hsid]
  · simp [purgeSeason, if_neg hsid]
  · simp [purgeSeason, if_neg hsid]
  · simp [purgeSeason, if_neg hsid, purgeDurable, Cache.del]
  · intro s hs; simp [purgeSeason, if_neg hsid, purgeDurable, Cache.del, hs]
  · simp [purgeSeason, if_neg hsid, purgeDurable]
  · simp [purgeSeason, if_neg hsid, purgeDurable]
  · intro o ho
    cases o
    · simp [purgeSeason, if_neg hsid, purgeDurable, Cache.del]
    · simp only [purgeSeason, if_neg hsid] at ho
      rcases ho with h | h
      all_goals exact absurd rfl h
    · simp [purgeSeason, if_neg hsid, Cache.del]

/-- Witness for C9 on the concrete state with two pending rows. -/
theorem purge_order_and_atomicity_witness :
    (("s1" : String) ≠ "")
    ∧ (purgeSeason stAB "s1" .txFail).2.cache "s1" = none
    ∧ (purgeSeason stAB "s1" .txFail).2.outbox = stAB.outbox :=
  ⟨by decide,
    have h := purge_order_and_atomicity stAB "s1" (by decide)
    ⟨h.2.1.2.1, h.2.1.2.2.2.2⟩⟩

/-- C10 — the `limit` and `range` query parameters are scanned as a
leading decimal integer with trailing characters ignored (`"5x"` parses as
5, `"7abc"` as 7); a non-empty parameter is rejected exactly when no
leading integer parses or the parsed value violates the bound (limit
outside 1..1000, range outside 0..100). -/
theorem scan_leading_int_params :
    parseLimitParam "5x" = some 5
    ∧ parseRangeParam "7abc" = some 7
    ∧ (∀ v : String, v ≠ "" →
        (parseLimitParam v = none
          ↔ sscanfInt v = none ∨ ∃ n, sscanfInt v = some n ∧ (n ≤ 0 ∨ 1000 < n)))
    ∧ (∀ v : String, v ≠ "" →
        (parseRangeParam v = none
          ↔ sscanfInt v = none ∨ ∃ n, sscanfInt v = some n ∧ (n < 0 ∨ 100 < n))) := by
  refine ⟨by decide, by decide, ?_, ?_⟩
  · intro v hv
    simp only [parseLimitParam, if_neg hv]
    rcases h : sscanfInt v with _ | n
    · simp
    · by_cases hb : n ≤ 0 ∨ 1000 < n
      · simp [hb]
      · simp [hb]
  · intro v hv
    simp only [parseRangeParam, if_neg hv]
    rcases h : sscanfInt v with _ | n
    · simp
    · by_cases hb : n < 0 ∨ 100 < n
      · simp [hb]
      · simp [hb]

/-- Witness for C10 at the concrete parameter string `"5x"`. -/
theorem scan_leading_int_params_witness :
    (("5x" : String) ≠ "")
    ∧ (parseLimitParam "5x" = none
        ↔ sscanfInt "5x" = none ∨ ∃ n, sscanfInt "5x" = some n ∧ (n ≤ 0 ∨ 1000 < n)) :=
  ⟨by decide, scan_leading_int_params.2.2.1 "5x" (by decide)⟩

/-- C8 — for a user present in the season's board and a radius in 0..100,
the around query returns a window of at most `2·R + 1` items whose 1-based
ranks are the consecutive integers starting at the clipped window start
(never below 1) and contain the queried user's 1-based rank `r0 + 1`. -/
theorem around_window_bounds (board : List (UserId × Int)) (u : UserId) (rng : Int) (r0 : Nat)
    (h0 : 0 ≤ rng) (h100 : rng ≤ 100) (hrank : zrevrank board u = some r0) :
    ∃ items, aroundQuery board u rng = some items
      ∧ (items.length : Int) ≤ 2 * rng + 1
      ∧ (∀ i (h : i < items.length),
          (items.get ⟨i, h⟩).rank
            = (if (r0 : Int) - rng < 0 then 0 else (r0 : Int) - rng) + i + 1)
      ∧ (∀ it ∈ items, 1 ≤ it.rank)
      ∧ ((r0 : Int) + 1) ∈ items.map (·.rank) := by
  have hr0len : r0 < board.length := by
    unfold zrevrank at hrank
    exact (List.findIdx?_eq_some_iff_findIdx_eq.mp hrank).1
  unfold aroundQuery
  rw [hrank]
  dsimp only
  by_cases hc : (r0 : Int) - rng < 0
  all_goals
    first
      | simp only [if_pos hc]
      | simp only [if_neg hc]
  all_goals refine ⟨_, rfl, ?_, ?_, ?_, ?_⟩
  case pos.refine_1 | neg.refine_1 =>
    simp only [List.length_map, List.enum_length, List.length_take, List.length_drop]
    omega
  case pos.refine_2 | neg.refine_2 =>
    intro i h
    simp only [List.get_eq_getElem, List.getElem_map, List.getElem_enum]
  case pos.refine_3 | neg.refine_3 =>
    intro it hit
    obtain ⟨iz, _, rfl⟩ := List.mem_map.mp hit
    dsimp
    omega
  case pos.refine_4 =>
    refine List.mem_map.mpr ⟨_, List.get_mem _ r0 ?_, ?_⟩
    · simp only [List.length_map, List.enum_length, List.length_take, List.length_drop]
      omega
    · simp only [List.get_eq_getElem, List.getElem_map, List.getElem_enum]
      omega
  case neg.refine_4 =>
    refine List.mem_map.mpr ⟨_, List.get_mem _ (r0 - ((r0 : Int) - rng).toNat) ?_, ?_⟩
    · simp only [List.length_map, List.enum_length, List.length_take, List.length_drop]
      omega
    · simp only [List.get_eq_getElem, List.getElem_map, List.getElem_enum]
      omega

/-! ### Supporting lemmas for the trace invariants -/

theorem sum_map_add (l : List α) (f g : α → Int) :
    (l.map fun a => f a + g a).sum = (l.map f).sum + (l.map g).sum := by
  induction l with
  | nil => simp
  | cons a tl ih => simp only [List.map_cons, List.sum_cons, ih]; ring

theorem sum_map_filterMap (l : List α) (g : α → Option β) (f : β → Int) :
    ((l.filterMap g).map f).sum
      = (l.map fun a => match g a with | some b => f b | none => 0).sum := by
  induction l with
  | nil => rfl
  | cons a tl ih =>
    rcases hg : g a with _ | b <;> simp [List.filterMap_cons, hg, ih]

/-- Summing a function over a sublist equals summing its id-gated version
over the whole list, provided ids are distinct. -/
theorem sum_ite_mem_map_id (f : OutboxRow → Int) :
    ∀ {c l : List OutboxRow}, c.Sublist l → (l.map (·.id)).Nodup →
      (l.map fun r => if r.id ∈ c.map (·.id) then f r else 0).sum = (c.map f).sum := by
  intro c l hsub
  induction hsub with
  | slnil => intro _; simp
  | @cons l₁ l₂ a hsub ih =>
    intro hnd
    rw [List.map_cons, List.nodup_cons] at hnd
    obtain ⟨hna, hnd₂⟩ := hnd
    have hnotin : a.id ∉ l₁.map (·.id) := fun h => hna ((hsub.map (·.id)).subset h)
    simp only [List.map_cons, List.sum_cons, if_neg hnotin]
    rw [ih hnd₂, zero_add]
  | @cons₂ l₁ l₂ a hsub ih =>
    intro hnd
    rw [List.map_cons, List.nodup_cons] at hnd
    obtain ⟨hna, hnd₂⟩ := hnd
    simp only [List.map_cons, List.sum_cons]
    rw [if_pos (List.mem_cons_self _ _)]
    have hcongr : ∀ r ∈ l₂,
        (if r.id ∈ a.id :: l₁.map (·.id) then f r else 0)
          = (if r.id ∈ l₁.map (·.id) then f r else 0) := by
      intro r hr
      have hne : r.id ≠ a.id := fun he => hna (he ▸ List.mem_map_of_mem (·.id) hr)
      by_cases h : r.id ∈ l₁.map (·.id)
      · rw [if_pos (List.mem_cons_of_mem _ h), if_pos h]
      · rw [if_neg ?_, if_neg h]
        intro hmem
        rcases List.mem_cons.mp hmem with he | hm
        · exact hne he
        · exact h hm
    rw [List.map_congr_left hcongr, ih hnd₂]

theorem nodup_ids_of_sorted {l : List OutboxRow}
    (h : l.Pairwise fun a b => a.id < b.id) : (l.map (·.id)).Nodup :=
  (List.pairwise_map).mpr (h.imp fun hab => Nat.ne_of_lt hab)

theorem score_zincrby (c : Cache) (sk : SeasonId) (uk : UserId) (d : Int)
    (s : SeasonId) (u : UserId) :
    score (zincrby c sk uk d) s u = score c s u + (if sk = s ∧ uk = u then d else 0) := by
  unfold score zincrby
  by_cases hs : s = sk
  · subst hs
    rcases hcs : c s with _ | m
    all_goals by_cases hu : u = uk
    · subst hu; simp [hcs]
    · have hu' : ¬uk = u := fun h => hu h.symm
      simp [hcs, hu, hu']
    · subst hu; simp [hcs]
    · have hu' : ¬uk = u := fun h => hu h.symm
      simp [hcs, hu, hu']
  · have hs' : ¬sk = s := fun h => hs h.symm
    simp [hs, hs']

theorem score_applyOps (ops : List Payload) (c : Cache) (s : SeasonId) (u : UserId) :
    score (applyOps c ops) s u = score c s u + (ops.map (opDelta s u)).sum := by
  induction ops generalizing c with
  | nil => simp [applyOps]
  | cons p tl ih =>
    show score (applyOps (zincrby c p.seasonId p.userId p.delta) tl) s u = _
    rw [ih, score_zincrby]
    simp only [List.map_cons, List.sum_cons, opDelta]
    ring

/-- The three possible results of the submit handler, statewise. -/
theorem postScores_cases (st : SysState) (sid : String)
    (body : Option scoreUpdateRequest) (txo : TxOutcome) :
    (postScores st sid body txo).2 = st
    ∨ ∃ req, (postScores st sid body txo).2 = commitSubmit st sid req := by
  unfold postScores
  repeat' split
  all_goals first | exact Or.inl rfl | exact Or.inr ⟨_, rfl⟩

/-- The three possible results of the purge handler, statewise. -/
theorem purgeSeason_cases (st : SysState) (sid : String) (out : PurgeOutcome) :
    (purgeSeason st sid out).2 = st
    ∨ (purgeSeason st sid out).2 = { st with cache := st.cache.del sid }
    ∨ (purgeSeason st sid out).2 = purgeDurable { st with cache := st.cache.del sid } sid := by
  unfold purgeSeason
  repeat' split
  all_goals first
    | exact Or.inl rfl
    | exact Or.inr (Or.inl rfl)
    | exact Or.inr (Or.inr rfl)

/-- The outbox of a committed non-empty batch cycle, as one map over the
prior outbox. -/
theorem processBatch_commit_outbox (st : SysState) (locked : List Nat)
    (h : (claimSelect st.outbox locked).isEmpty = false) :
    (processBatchOutbox st locked .commit).outbox
      = st.outbox.map (fun x =>
          finalizeRow ((claimSelect st.outbox locked).map (·.id)) (fun _ => false)
            (if x.id ∈ (claimSelect st.outbox locked).map (·.id)
             then { x with status := .processing, attempts := x.attempts + 1 } else x)) := by
  simp only [processBatchOutbox, h, Bool.false_eq_true, if_false, markProcessing, List.map_map]
  rfl

/-- The cache of a committed non-empty batch cycle. -/
theorem processBatch_commit_cache (st : SysState) (locked : List Nat)
    (h : (claimSelect st.outbox locked).isEmpty = false) :
    (processBatchOutbox st locked .commit).cache
      = applyOps st.cache (okPayloads (claimSelect st.outbox locked) (fun _ => false)) := by
  simp only [processBatchOutbox, h, Bool.false_eq_true, if_false]

theorem processBatch_empty (st : SysState) (locked : List Nat)
    (h : (claimSelect st.outbox locked).isEmpty = true) :
    processBatchOutbox st locked .commit = st := by
  simp only [processBatchOutbox, h, if_true]

/-- A cycle that aborts after dispatch leaves the outbox durably
unchanged: the transaction, processing update included, rolls back. -/
theorem processBatch_pipeFail_outbox (st : SysState) (locked : List Nat) (rerr : Nat → Bool) :
    (processBatchOutbox st locked (.pipeFail rerr)).outbox = st.outbox := by
  unfold processBatchOutbox
  dsimp only
  split <;> rfl

theorem processBatch_finalizeFail_outbox (st : SysState) (locked : List Nat) :
    (processBatchOutbox st locked .finalizeFail).outbox = st.outbox := by
  unfold processBatchOutbox
  dsimp only
  split <;> rfl

/-- Witness for C8 on a concrete two-user board (spec scenario 2:
`around(s1, u2, 1)` for the board `[(u1, 8), (u2, 4)]`). -/
theorem around_window_bounds_witness :
    ((0 : Int) ≤ 1 ∧ (1 : Int) ≤ 100 ∧ zrevrank [("u1", 8), ("u2", 4)] "u2" = some 1)
    ∧ ∃ items, aroundQuery [("u1", 8), ("u2", 4)] "u2" 1 = some items
      ∧ (items.length : Int) ≤ 2 * 1 + 1
      ∧ (∀ i (h : i < items.length),
          (items.get ⟨i, h⟩).rank
            = (if ((1 : Nat) : Int) - 1 < 0 then 0 else ((1 : Nat) : Int) - 1) + i + 1)
      ∧ (∀ it ∈ items, 1 ≤ it.rank)
      ∧ (((1 : Nat) : Int) + 1) ∈ items.map (·.rank) :=
  ⟨⟨by decide, by decide, by decide⟩,
    around_window_bounds [("u1", 8), ("u2", 4)] "u2" 1 1
      (by decide) (by decide) (by decide)⟩

end LeaderboardGo

namespace LeaderboardGo

/-! ### Well-formedness preservation and per-step facts -/

theorem procRow_id (ids : List Nat) (x : OutboxRow) :
    (if x.id ∈ ids then { x with status := Status.processing, attempts := x.attempts + 1 }
     else x).id = x.id := by
  split <;> rfl

theorem procRow_attempts (ids : List Nat) (x : OutboxRow) :
    (if x.id ∈ ids then { x with status := Status.processing, attempts := x.attempts + 1 }
     else x).attempts = x.attempts + (if x.id ∈ ids then 1 else 0) := by
  split <;> simp

theorem processBatch_nextOid (st : SysState) (locked : List Nat) (out : CycleOutcome) :
    (processBatchOutbox st locked out).nextOid = st.nextOid := by
  unfold processBatchOutbox
  cases out
  · rfl
  all_goals dsimp only
  all_goals split <;> rfl

theorem WF_initState : WF initState :=
  ⟨List.Pairwise.nil, fun r hr => absurd hr (List.not_mem_nil r)⟩

theorem WF_commitSubmit (st : SysState) (sid : SeasonId) (req : scoreUpdateRequest)
    (h : WF st) : WF (commitSubmit st sid req) := by
  constructor
  · show (st.outbox ++ [_]).Pairwise _
    rw [List.pairwise_append]
    refine ⟨h.sorted, by simp, ?_⟩
    intro a ha b hb
    rw [List.mem_singleton] at hb
    subst hb
    exact h.bounded a ha
  · intro r hr
    rcases List.mem_append.mp hr with hl | hr2
    · exact Nat.lt_succ_of_lt (h.bounded r hl)
    · rw [List.mem_singleton] at hr2
      subst hr2
      exact Nat.lt_succ_self _

theorem WF_processBatchOutbox (st : SysState) (locked : List Nat) (out : CycleOutcome)
    (h : WF st) : WF (processBatchOutbox st locked out) := by
  cases out with
  | abortEarly => exact h
  | pipeFail rerr =>
    constructor
    · rw [processBatch_pipeFail_outbox]; exact h.sorted
    · intro r hr
      rw [processBatch_pipeFail_outbox] at hr
      rw [processBatch_nextOid]
      exact h.bounded r hr
  | finalizeFail =>
    constructor
    · rw [processBatch_finalizeFail_outbox]; exact h.sorted
    · intro r hr
      rw [processBatch_finalizeFail_outbox] at hr
      rw [processBatch_nextOid]
      exact h.bounded r hr
  | commit =>
    by_cases hemp : (claimSelect st.outbox locked).isEmpty = true
    · rw [processBatch_empty st locked hemp]; exact h
    · have hemp' : (claimSelect st.outbox locked).isEmpty = false := by
        revert hemp; cases (claimSelect st.outbox locked).isEmpty <;> simp
      constructor
      · rw [processBatch_commit_outbox st locked hemp']
        refine (List.pairwise_map).mpr (h.sorted.imp ?_)
        intro a b hab
        rw [finalizeRow_id, finalizeRow_id, procRow_id, procRow_id]
        exact hab
      · intro r hr
        rw [processBatch_commit_outbox st locked hemp'] at hr
        obtain ⟨x, hx, rfl⟩ := List.mem_map.mp hr
        rw [finalizeRow_id, procRow_id, processBatch_nextOid]
        exact h.bounded x hx

theorem WF_purgeDurable (st : SysState) (sid : SeasonId) (h : WF st) :
    WF (purgeDurable st sid) := by
  constructor
  · exact h.sorted.sublist (List.filter_sublist _)
  · intro r hr
    exact h.bounded r ((List.filter_sublist _).subset hr)

theorem WF_stepState (st : SysState) (stp : Step) (h : WF st) : WF (stepState st stp) := by
  cases stp with
  | submit sid body txo =>
    rcases postScores_cases st sid body txo with he | ⟨req, he⟩
    · simp only [stepState]; rw [he]; exact h
    · simp only [stepState]; rw [he]; exact WF_commitSubmit st sid req h
  | drain locked out => exact WF_processBatchOutbox st locked out h
  | purge sid out =>
    rcases purgeSeason_cases st sid out with he | he | he
    · simp only [stepState]; rw [he]; exact h
    · simp only [stepState]; rw [he]; exact ⟨h.sorted, h.bounded⟩
    · simp only [stepState]; rw [he]
      exact WF_purgeDurable _ sid ⟨h.sorted, h.bounded⟩

theorem nextOid_le_stepState (st : SysState) (stp : Step) :
    st.nextOid ≤ (stepState st stp).nextOid := by
  cases stp with
  | submit sid body txo =>
    rcases postScores_cases st sid body txo with he | ⟨req, he⟩
    · simp only [stepState]; rw [he]
    · simp only [stepState]; rw [he]; exact Nat.le_succ _
  | drain locked out =>
    simp only [stepState]; rw [processBatch_nextOid]
  | purge sid out =>
    rcases purgeSeason_cases st sid out with he | he | he
    all_goals simp only [stepState]; rw [he]
    all_goals exact Nat.le_refl _

theorem claimedIds_lt_nextOid (st : SysState) (stp : Step) (h : WF st) :
    ∀ i ∈ claimedIds st stp, i < st.nextOid := by
  intro i hi
  cases stp with
  | submit sid body txo => simp [claimedIds] at hi
  | purge sid out => simp [claimedIds] at hi
  | drain locked out =>
    cases out with
    | abortEarly => simp [claimedIds] at hi
    | pipeFail rerr => simp [claimedIds] at hi
    | finalizeFail => simp [claimedIds] at hi
    | commit =>
      simp only [claimedIds] at hi
      obtain ⟨r, hr, rfl⟩ := List.mem_map.mp hi
      exact h.bounded r (mem_of_mem_claimSelect hr)

/-- Per-step row accounting: every row of the next state is either an old
row whose attempts grew by one exactly when it was claimed, or a freshly
inserted row with zero attempts and a fresh id. -/
theorem step_attempts (st : SysState) (stp : Step) (h : WF st) :
    ∀ r' ∈ (stepState st stp).outbox,
      (∃ r ∈ st.outbox, r'.id = r.id
        ∧ r'.attempts = r.attempts + (if r.id ∈ claimedIds st stp then 1 else 0))
      ∨ (r'.attempts = 0 ∧ st.nextOid ≤ r'.id) := by
  intro r' hr'
  cases stp with
  | submit sid body txo =>
    simp only [stepState] at hr'
    rcases postScores_cases st sid body txo with he | ⟨req, he⟩
    · rw [he] at hr'
      exact Or.inl ⟨r', hr', rfl, by simp [claimedIds]⟩
    · rw [he] at hr'
      rcases List.mem_append.mp hr' with hl | hr2
      · exact Or.inl ⟨r', hl, rfl, by simp [claimedIds]⟩
      · rw [List.mem_singleton] at hr2
        subst hr2
        exact Or.inr ⟨rfl, Nat.le_refl _⟩
  | purge sid out =>
    simp only [stepState] at hr'
    rcases purgeSeason_cases st sid out with he | he | he
    · rw [he] at hr'; exact Or.inl ⟨r', hr', rfl, by simp [claimedIds]⟩
    · rw [he] at hr'; exact Or.inl ⟨r', hr', rfl, by simp [claimedIds]⟩
    · rw [he] at hr'
      exact Or.inl ⟨r', (List.filter_sublist _).subset hr', rfl, by simp [claimedIds]⟩
  | drain locked out =>
    simp only [stepState] at hr'
    cases out with
    | abortEarly => exact Or.inl ⟨r', hr', rfl, by simp [claimedIds]⟩
    | pipeFail rerr =>
      rw [processBatch_pipeFail_outbox] at hr'
      exact Or.inl ⟨r', hr', rfl, by simp [claimedIds]⟩
    | finalizeFail =>
      rw [processBatch_finalizeFail_outbox] at hr'
      exact Or.inl ⟨r', hr', rfl, by simp [claimedIds]⟩
    | commit =>
      by_cases hemp : (claimSelect st.outbox locked).isEmpty = true
      · rw [processBatch_empty st locked hemp] at hr'
        refine Or.inl ⟨r', hr', rfl, ?_⟩
        have he : claimSelect st.outbox locked = [] := List.isEmpty_iff.mp hemp
        simp [claimedIds, he]
      · have hemp' : (claimSelect st.outbox locked).isEmpty = false := by
          revert hemp; cases (claimSelect st.outbox locked).isEmpty <;> simp
        rw [processBatch_commit_outbox st locked hemp'] at hr'
        obtain ⟨x, hx, rfl⟩ := List.mem_map.mp hr'
        refine Or.inl ⟨x, hx, ?_, ?_⟩
        · rw [finalizeRow_id, procRow_id]
        · rw [finalizeRow_attempts, procRow_attempts]
          simp only [claimedIds]

end LeaderboardGo

namespace LeaderboardGo

/-- Attempts bookkeeping along a trace: starting from a state whose rows
carry `base` attempts and whose fresh ids are unused, every row of the
final state carries its baseline plus one per claim. -/
theorem attempts_invariant (tr : List Step) :
    ∀ (st : SysState) (base : Nat → Nat), WF st →
      (∀ r ∈ st.outbox, r.attempts = base r.id) →
      (∀ i, st.nextOid ≤ i → base i = 0) →
      ∀ r ∈ (runTrace st tr).outbox, r.attempts = base r.id + claimCount st tr r.id := by
  induction tr with
  | nil =>
    intro st base hWF hbase hfresh r hr
    have hmem : r ∈ st.outbox := hr
    rw [claimCount, hbase r hmem]
    omega
  | cons stp rest ih =>
    intro st base hWF hbase hfresh r hr
    have hWF' := WF_stepState st stp hWF
    have hfar : ∀ i ∈ claimedIds st stp, i < st.nextOid := claimedIds_lt_nextOid st stp hWF
    have hb1 : ∀ x ∈ (stepState st stp).outbox,
        x.attempts = base x.id + (if x.id ∈ claimedIds st stp then 1 else 0) := by
      intro x hx
      rcases step_attempts st stp hWF x hx with ⟨r0, hr0, hid, hatt⟩ | ⟨hz, hge⟩
      · rw [hatt, hbase r0 hr0, hid]
      · rw [hz, hfresh _ hge, if_neg
          (fun hin => Nat.lt_irrefl _ (Nat.lt_of_lt_of_le (hfar _ hin) hge))]
    have hb2 : ∀ i, (stepState st stp).nextOid ≤ i →
        base i + (if i ∈ claimedIds st stp then 1 else 0) = 0 := by
      intro i hi
      have hge : st.nextOid ≤ i := Nat.le_trans (nextOid_le_stepState st stp) hi
      rw [hfresh i hge, if_neg
        (fun hin => Nat.lt_irrefl _ (Nat.lt_of_lt_of_le (hfar _ hin) hge))]
    have hrec := ih (stepState st stp)
      (fun i => base i + (if i ∈ claimedIds st stp then 1 else 0)) hWF' hb1 hb2 r hr
    rw [claimCount, hrec, ← Nat.add_assoc]

end LeaderboardGo

namespace LeaderboardGo

/-- C7 — over any trace from the empty initial state, a row's `attempts`
equals the number of committed drain cycles that claimed it: the claim
update is the only point incrementing `attempts`, and in particular a
revert to `pending` after a failed cache op leaves `attempts` untouched. -/
theorem attempts_eq_claim_count (tr : List Step) (r : OutboxRow)
    (hmem : r ∈ (runTrace initState tr).outbox) :
    r.attempts = claimCount initState tr r.id := by
  have h := attempts_invariant tr initState (fun _ => 0) WF_initState
    (fun r hr => absurd hr (List.not_mem_nil r)) (fun _ _ => rfl) r hmem
  simpa using h

/-- Witness for C7 on the retry trace: the row is claimed twice (one
failed cycle reverting it, one successful), ending with `attempts = 2`. -/
theorem attempts_eq_claim_count_witness :
    (doneRowRetry ∈ (runTrace initState trRetry).outbox)
    ∧ doneRowRetry.attempts = claimCount initState trRetry doneRowRetry.id :=
  ⟨by decide, attempts_eq_claim_count trRetry doneRowRetry (by decide)⟩

end LeaderboardGo

namespace LeaderboardGo

/-! ### The reconciliation invariant -/

theorem mem_claimSelect_of_id_mem {outbox : List OutboxRow} {locked : List Nat}
    {x : OutboxRow} (hnd : (outbox.map (·.id)).Nodup) (hx : x ∈ outbox)
    (hid : x.id ∈ (claimSelect outbox locked).map (·.id)) :
    x ∈ claimSelect outbox locked := by
  obtain ⟨c, hc, hcid⟩ := List.mem_map.mp hid
  have hcx : c = x :=
    List.inj_on_of_nodup_map hnd (mem_of_mem_claimSelect hc) hx hcid
  exact hcx ▸ hc

theorem rowDoneDelta_pending {r : OutboxRow} (h : r.status = .pending)
    (s : SeasonId) (u : UserId) : rowDoneDelta s u r = 0 := by
  rcases hp : r.payload with p | ⟨es, msg⟩ <;> simp [rowDoneDelta, hp, h]

theorem rowDoneDelta_finalize (ids : List Nat) (rerr : Nat → Bool)
    (s : SeasonId) (u : UserId) (r : OutboxRow) (hid : r.id ∈ ids) :
    rowDoneDelta s u (finalizeRow ids rerr
        { r with status := .processing, attempts := r.attempts + 1 })
      = doneGain s u rerr r := by
  unfold finalizeRow
  dsimp
  rw [if_pos hid]
  rcases hp : r.payload with p | ⟨es, msg⟩
  · dsimp
    by_cases ht : r.eventType = "score_delta"
    · rw [if_pos ht]
      by_cases hre : rerr r.id = true
      · rw [if_pos hre]
        simp [rowDoneDelta, doneGain, hp, hre, ht]
      · have hre' : rerr r.id = false := by
          revert hre; cases rerr r.id <;> simp
        rw [if_neg hre]
        simp [rowDoneDelta, doneGain, hp, hre', ht]
    · rw [if_neg ht]
      simp [rowDoneDelta, doneGain, hp, ht]
  · dsimp
    simp [rowDoneDelta, doneGain, hp]

theorem finalizeRow_unclaimed (ids : List Nat) (rerr : Nat → Bool)
    (x : OutboxRow) (hid : x.id ∉ ids) :
    finalizeRow ids rerr (if x.id ∈ ids then
        { x with status := .processing, attempts := x.attempts + 1 } else x) = x := by
  rw [if_neg hid]
  unfold finalizeRow
  rw [if_neg hid]

theorem okPayloads_sum (claimed : List OutboxRow) (rerr : Nat → Bool)
    (s : SeasonId) (u : UserId) :
    ((okPayloads claimed rerr).map (opDelta s u)).sum
      = (claimed.map (doneGain s u rerr)).sum := by
  rw [okPayloads, sum_map_filterMap]
  refine congrArg List.sum (List.map_congr_left ?_)
  intro r hr
  rcases hp : r.payload with p | ⟨es, msg⟩
  · dsimp
    by_cases hc : r.eventType = "score_delta" ∧ rerr r.id = false
    · rw [if_pos hc]
      simp [doneGain, opDelta, hp, hc.1, hc.2, and_assoc]
    · rw [if_neg hc]
      have : ¬(r.eventType = "score_delta" ∧ rerr r.id = false
          ∧ p.seasonId = s ∧ p.userId = u) := fun hh => hc ⟨hh.1, hh.2.1⟩
      simp [doneGain, hp, this]
  · simp [doneGain, hp]

/-- The invariant survives one step of any non-purge operation whose
drain cycle, if any, does not abort after dispatching its pipeline. -/
theorem scoresMatch_stepState (st : SysState) (stp : Step) (hWF : WF st)
    (hnp : stp.isPurge = false) (hcl : stp.orphansIncrements = false)
    (h : scoresMatch st) : scoresMatch (stepState st stp) := by
  cases stp with
  | purge sid out => simp [Step.isPurge] at hnp
  | submit sid body txo =>
    rcases postScores_cases st sid body txo with he | ⟨req, he⟩
    · intro s u
      simp only [stepState]
      rw [he]
      exact h s u
    · intro s u
      simp only [stepState]
      rw [he]
      show score st.cache s u = doneSum (st.outbox ++ [_]) s u
      rw [doneSum, List.map_append, List.sum_append]
      have h2 := h s u
      rw [doneSum] at h2
      rw [← h2]
      simp [rowDoneDelta]
  | drain locked out =>
    cases out with
    | abortEarly => exact h
    | pipeFail rerr => simp [Step.orphansIncrements] at hcl
    | finalizeFail => simp [Step.orphansIncrements] at hcl
    | commit =>
      by_cases hemp : (claimSelect st.outbox locked).isEmpty = true
      · intro s u
        simp only [stepState]
        rw [processBatch_empty st locked hemp]
        exact h s u
      · have hemp' : (claimSelect st.outbox locked).isEmpty = false := by
          revert hemp; cases (claimSelect st.outbox locked).isEmpty <;> simp
        intro s u
        simp only [stepState]
        rw [show (processBatchOutbox st locked CycleOutcome.commit).cache
            = applyOps st.cache (okPayloads (claimSelect st.outbox locked) (fun _ => false))
          from processBatch_commit_cache st locked hemp']
        rw [processBatch_commit_outbox st locked hemp']
        rw [score_applyOps, h s u]
        rw [doneSum, doneSum, List.map_map]
        have hnodup := nodup_ids_of_sorted hWF.sorted
        have hpoint : ∀ x ∈ st.outbox,
            (rowDoneDelta s u ∘ fun x =>
                finalizeRow ((claimSelect st.outbox locked).map (·.id)) (fun _ => false)
                  (if x.id ∈ (claimSelect st.outbox locked).map (·.id)
                   then { x with status := .processing, attempts := x.attempts + 1 } else x)) x
              = rowDoneDelta s u x
                + (if x.id ∈ (claimSelect st.outbox locked).map (·.id)
                   then doneGain s u (fun _ => false) x else 0) := by
          intro x hx
          dsimp only [Function.comp]
          by_cases hid : x.id ∈ (claimSelect st.outbox locked).map (·.id)
          · have hxcl : x ∈ claimSelect st.outbox locked :=
              mem_claimSelect_of_id_mem hnodup hx hid
            have hpend := (props_of_mem_claimSelect hxcl).1
            rw [if_pos hid, if_pos hid, rowDoneDelta_finalize _ (fun _ => false) s u x hid,
              rowDoneDelta_pending hpend]
            omega
          · rw [finalizeRow_unclaimed _ (fun _ => false) x hid, if_neg hid]
            omega
        rw [List.map_congr_left hpoint, sum_map_add,
          sum_ite_mem_map_id (doneGain s u (fun _ => false))
            (claimSelect_sublist st.outbox locked) hnodup,
          okPayloads_sum]

/-- The invariant holds after any purge-free, orphan-free trace from a
state where it holds. -/
theorem scoresMatch_runTrace (tr : List Step) :
    ∀ st, WF st → scoresMatch st → (∀ stp ∈ tr, stp.isPurge = false) →
      (∀ stp ∈ tr, stp.orphansIncrements = false) →
      scoresMatch (runTrace st tr) := by
  induction tr with
  | nil => intro st _ h _ _; exact h
  | cons stp rest ih =>
    intro st hWF h hnp hcl
    exact ih (stepState st stp) (WF_stepState st stp hWF)
      (scoresMatch_stepState st stp hWF (hnp stp (List.mem_cons_self _ _))
        (hcl stp (List.mem_cons_self _ _)) h)
      (fun x hx => hnp x (List.mem_cons_of_mem _ hx))
      (fun x hx => hcl x (List.mem_cons_of_mem _ hx))

end LeaderboardGo

namespace LeaderboardGo

/-- C2 (amended) — after any purge-free trace from the empty initial
state in which no drain cycle aborts after dispatching its pipeline
(every cycle either aborts before dispatch or commits) and that ends
quiescent (no `pending` or `processing` outbox rows), every `(season,
user)` cache score equals the sum of the deltas of the `done` outbox rows
for that pair, scores modeled as exact integers. -/
theorem quiescent_cache_eq_doneSum (tr : List Step)
    (hnp : ∀ stp ∈ tr, stp.isPurge = false)
    (hcl : ∀ stp ∈ tr, stp.orphansIncrements = false)
    (hq : quiescent (runTrace initState tr)) (s : SeasonId) (u : UserId) :
    score (runTrace initState tr).cache s u = doneSum (runTrace initState tr).outbox s u :=
  scoresMatch_runTrace tr initState WF_initState (fun _ _ => rfl) hnp hcl s u

/-- Counterexample for C2 as stated: a cycle whose increment is applied
but whose transaction then fails to finalize leaves the row `pending`
while the increment persists; the retry applies the delta again, so the
quiescent cache holds 10 against a done-sum of 5. -/
theorem quiescent_cache_exceeds_doneSum :
    (∀ stp ∈ trDouble, stp.isPurge = false)
    ∧ quiescent (runTrace initState trDouble)
    ∧ score (runTrace initState trDouble).cache "s1" "u1" = 10
    ∧ doneSum (runTrace initState trDouble).outbox "s1" "u1" = 5 := by
  refine ⟨by decide, by decide, by decide, by decide⟩

/-- Witness for C2 on the accumulation trace (spec scenario 2): two
submits for `(s1, u1)` drained in one clean cycle; the final state is
quiescent and both sides equal 8. -/
theorem quiescent_cache_eq_doneSum_witness :
    ((∀ stp ∈ trAccum, stp.isPurge = false)
      ∧ (∀ stp ∈ trAccum, stp.orphansIncrements = false)
      ∧ quiescent (runTrace initState trAccum))
    ∧ score (runTrace initState trAccum).cache "s1" "u1"
        = doneSum (runTrace initState trAccum).outbox "s1" "u1" :=
  ⟨⟨by decide, by decide, by decide⟩,
    quiescent_cache_eq_doneSum trAccum (by decide) (by decide) (by decide) "s1" "u1"⟩

end LeaderboardGo
